import Mathlib

/-!
# Verification of the ziffers-python core against its specification

Shallow embedding of the parts of `ziffers-python` that the checked claims
are about:

* `ziffers/scale.py` — `note_from_pc`, `resolve_pitch_bend`, `get_scale`,
  `note_name_to_midi`, `get_scale_notes`, `named_chord_from_degree`;
* `ziffers/common.py` — `euclidian_rhythm`;
* `ziffers/classes/items.py` — `Meta.update_options`, `Pitch.update_note`,
  `Cyclic.get_value`, `Chord.update_notes` and the `Euclid.evaluate` caller
  in `ziffers/classes/sequences.py`;
* `ziffers/classes/root.py` — the `Ziffers` root runtime
  (`__getitem__`, `__next__`, `take`).

Python `int`/`float` values are modelled as exact rationals tagged with their
runtime type; machine floating-point rounding is idealised away (the dyadic
rationals appearing in concrete inputs are exact in both worlds).  Fallible
code (Python exceptions: `ZeroDivisionError`, `IndexError`, `TypeError`) is
modelled with `Option`.
-/

namespace Ziffers

/-! ## Python numbers -/

/-- A Python number as the scale resolver handles it: its exact value together
with its Python runtime type (`isFloat = true` for `float`, `false` for
`int`).  Arithmetic follows Python's coercion rule: the result is a `float`
as soon as either operand is one. -/
structure PyNum where
  val : ℚ
  isFloat : Bool
deriving DecidableEq, Repr

/-- A Python `int` literal viewed as a `PyNum`. -/
def pyInt (n : ℤ) : PyNum := ⟨(n : ℚ), false⟩

/-- Python `+` on numbers. -/
def pyAdd (a b : PyNum) : PyNum := ⟨a.val + b.val, a.isFloat || b.isFloat⟩

/-- Python `*` on numbers. -/
def pyMul (a b : PyNum) : PyNum := ⟨a.val * b.val, a.isFloat || b.isFloat⟩

/-- Python `sum` on a list of numbers: a left fold starting from the `int` 0. -/
def pySum (l : List PyNum) : PyNum := l.foldl pyAdd (pyInt 0)

/-- Python `round` on an exact rational: round half to even. -/
def pyRound (q : ℚ) : ℤ :=
  let f := ⌊q⌋
  let r := q - f
  if r < 1/2 then f
  else if 1/2 < r then f + 1
  else if f % 2 = 0 then f else f + 1

/-- Python `int()` applied to a rational: truncation toward zero. -/
def ratTrunc (q : ℚ) : ℤ := if 0 ≤ q then ⌊q⌋ else -⌊-q⌋

/-! ## `ziffers/scale.py` -/

/-- `midi_to_freq` in the source returns `(440/32) * 2^((note-9)/12)`, a
strictly monotone real-valued exponential.  No claim inspects the real
frequency value, so a frequency is represented by the MIDI note value that
defines it; a ratio of two frequencies then corresponds to a difference of
the wrapped values, which is the only use `resolve_pitch_bend` makes of
them. -/
structure Freq where
  note : ℚ
deriving DecidableEq, Repr

/-- `midi_to_freq` from `ziffers/scale.py` (see `Freq`). -/
def midiToFreq (note : ℚ) : Freq := ⟨note⟩

/-- `resolve_pitch_bend` from `ziffers/scale.py`.  The source computes
`bend_diff = midi_to_freq(start_value) / midi_to_freq(end_value)` and
`bend_target = 1200 * log2(bend_diff)`; with
`midi_to_freq n = (440/32) * 2^((n-9)/12)` this is exactly
`1200 * ((start_value - end_value) / 12) = 100 * (start_value - end_value)`,
which is how that real quantity is rendered here in exact arithmetic.  The
fractionality test `note_value % 1 != 0.0` is `val ≠ ⌊val⌋`. -/
def resolvePitchBend (noteValue : PyNum) (semitones : ℤ) : PyNum × Option ℤ :=
  if noteValue.isFloat = true ∧ noteValue.val ≠ ((⌊noteValue.val⌋ : ℤ) : ℚ) then
    let r : ℚ := (pyRound noteValue.val : ℤ)
    let startValue : ℚ := if noteValue.val > r then noteValue.val else r
    let endValue : ℚ := if noteValue.val > r then r else noteValue.val
    let bendTarget : ℚ := 100 * (startValue - endValue)
    (noteValue, some (8192 + ratTrunc (8191 * (bendTarget / (100 * semitones)))))
  else
    (noteValue, some 8192)

/-- The final branch of `note_from_pc`: a `float`-typed note goes through
`resolve_pitch_bend(note)`, an `int`-typed note is returned as
`(note, None)`. -/
def noteFinish (note : PyNum) : PyNum × Option ℤ :=
  if note.isFloat then resolvePitchBend note 1 else (note, none)

/-- `note_from_pc` from `ziffers/scale.py`, with `root` already in MIDI and
`intervals` already an interval list (the string branches normalising a note
name or a scale name are `noteNameToMidi` and `getScale` below, exactly as
the source delegates to `note_name_to_midi` and `get_scale`).  Python's `//`
against the positive `scale_length` is `Int.fdiv` (floor division) and its
`%` is `Int.emod`.  An empty interval list makes the source raise
`ZeroDivisionError` at `pitch_class // scale_length`; the theorems below
therefore assume `intervals ≠ []`. -/
def noteFromPc (root : ℤ) (pitchClass : ℤ) (intervals : List PyNum)
    (octave : ℤ) (modifier : ℤ) (degrees : Bool) : PyNum × Option ℤ :=
  let pc0 : ℤ := if degrees = true ∧ 0 < pitchClass then pitchClass - 1 else pitchClass
  let scaleLength : ℤ := intervals.length
  let folded : ℤ × ℤ :=
    if pc0 ≥ scaleLength ∨ pc0 < 0 then
      let octaveF := octave + Int.fdiv pc0 scaleLength
      let pc := if pc0 < 0 then scaleLength - ((pc0.natAbs : ℤ) % scaleLength)
                else pc0 % scaleLength
      let pc := if pc = scaleLength then 0 else pc
      (octaveF, pc)
    else (octave, pc0)
  let note := pyAdd (pyInt root) (pySum (intervals.take folded.2.toNat))
  let note := pyAdd (pyAdd note (pyMul (pyInt folded.1) (pySum intervals))) (pyInt modifier)
  noteFinish note

/-! ## Scale and chord tables

`ziffers/scale.py` imports its constant tables (`SCALES`, `MODIFIERS`,
`NOTES_TO_INTERVALS`, `CHORDS`, …) from `ziffers/defaults.py`, whose snapshot
in this repository only contains `DEFAULT_DURS`.  The tables themselves are
therefore modelled from the spec (§4.3, §7 and the glossary). -/

/-- Python `s.lower().capitalize()` as `get_scale` applies it to a scale
name: lowercase every character, then uppercase the first. -/
def normalizeScaleName (s : String) : String :=
  match s.toList.map Char.toLower with
  | [] => ""
  | c :: rest => String.mk (c.toUpper :: rest)

/-- Association-list lookup standing for Python's `dict.get`. -/
def lookupTable {β : Type} (table : List (String × β)) (k : String) : Option β :=
  (table.find? (fun e => e.1 == k)).map (·.2)

/-- The Ionian (major) interval list, the documented universal fallback. -/
def ionianIntervals : List PyNum :=
  [pyInt 2, pyInt 2, pyInt 1, pyInt 2, pyInt 2, pyInt 2, pyInt 1]

/-- Modelled from the spec: the `SCALES` table of `ziffers/defaults.py` is
missing from the source snapshot (only its import is present).  The spec
fixes the lookup discipline — capitalized name, ordered semitone-step
interval list, `"Ionian"` as fallback — and names the entries listed here;
every claim checked below is independent of the exact set of entries. -/
def SCALES : List (String × List PyNum) :=
  [("Ionian", ionianIntervals),
   ("Aeolian", [pyInt 2, pyInt 1, pyInt 2, pyInt 2, pyInt 1, pyInt 2, pyInt 2]),
   ("Chromatic", List.replicate 12 (pyInt 1))]

/-- A scale argument: either a name to look up or an explicit interval list
(Python's `isinstance(scale, (list, tuple))` branch). -/
inductive ScaleArg where
  | name (s : String)
  | intervals (l : List PyNum)
deriving DecidableEq, Repr

/-- `get_scale` from `ziffers/scale.py`: lists/tuples pass through, names are
normalised and looked up with `SCALES["Ionian"]` as default. -/
def getScale : ScaleArg → List PyNum
  | .intervals l => l
  | .name s => (lookupTable SCALES (normalizeScaleName s)).getD ionianIntervals

/-- Modelled from the spec: the `NOTES_TO_INTERVALS` letter → semitone table
of `ziffers/defaults.py` is missing from the snapshot; the spec's note-name
normalisation `12 + octave*12 + interval + accidental` together with the
repository's own test vectors (`C4 = 60`, `A1 = 33`, …) fixes the standard
values used here. -/
def NOTES_TO_INTERVALS : Char → ℤ
  | 'C' => 0 | 'D' => 2 | 'E' => 4 | 'F' => 5 | 'G' => 7 | 'A' => 9 | 'B' => 11
  | _ => 0

/-- Modelled from the spec: the `MODIFIERS` accidental table (`#`/`s` sharp,
`b` flat, ±1 semitone). -/
def MODIFIERS : Char → ℤ
  | '#' => 1 | 's' => 1 | 'b' => -1 | _ => 0

/-- One character of the class `[a-gA-G]`. -/
def isNoteChar (c : Char) : Bool :=
  (decide ('a' ≤ c) && decide (c ≤ 'g')) || (decide ('A' ≤ c) && decide (c ≤ 'G'))

/-- One character of the class `[#bs]`. -/
def isModChar (c : Char) : Bool := c == '#' || c == 'b' || c == 's'

/-- One character of the class `[1-9]`. -/
def isDigit19 (c : Char) : Bool := decide ('1' ≤ c) && decide (c ≤ '9')

/-- The regex `^([a-gA-G])([#bs])?([1-9])?$` of `note_name_to_midi` as a
direct parse of the character list; the three groups have pairwise disjoint
character classes, so greedy matching is exact. -/
def parseNoteName : List Char → Option (Char × Option Char × Option Char)
  | [] => none
  | c :: rest =>
    if isNoteChar c then
      match rest with
      | [] => some (c, none, none)
      | d :: rest2 =>
        if isModChar d then
          match rest2 with
          | [] => some (c, some d, none)
          | e :: rest3 =>
            if isDigit19 e && rest3.isEmpty then some (c, some d, some e) else none
        else if isDigit19 d && rest2.isEmpty then some (c, none, some d)
        else none
    else none

/-- `note_name_to_midi` from `ziffers/scale.py`: parse `[a-gA-G][#bs]?[1-9]?`,
defaulting to octave 4 and no accidental; any non-matching string yields
MIDI 60. -/
def noteNameToMidi (name : String) : ℤ :=
  match parseNoteName name.toList with
  | none => 60
  | some (c, m, d) =>
    let octave : ℤ := match d with
      | some dc => ((dc.toNat - '0'.toNat : ℕ) : ℤ)
      | none => 4
    let modifier : ℤ := match m with
      | some mc => MODIFIERS mc
      | none => 0
    let interval := NOTES_TO_INTERVALS c.toUpper
    12 + octave * 12 + interval + modifier

/-- The walk `[root := root + semitone for semitone in scale]` of
`get_scale_notes`: the partial sums after each step, together with the final
accumulated root. -/
def scanAdds (root : PyNum) : List PyNum → List PyNum × PyNum
  | [] => ([], root)
  | s :: rest =>
    let r := pyAdd root s
    let (tail, fin) := scanAdds r rest
    (r :: tail, fin)

/-- The per-octave loop of `get_scale_notes`. -/
def getScaleNotesGo (root : PyNum) (scale : List PyNum) : ℕ → List PyNum
  | 0 => []
  | n + 1 =>
    let step := scanAdds root scale
    step.1 ++ getScaleNotesGo step.2 scale n

/-- `get_scale_notes` from `ziffers/scale.py`: `[root]` followed by the
running sums of the scale's intervals, `num_octaves` times. -/
def getScaleNotes (scale : ScaleArg) (root : ℤ) (numOctaves : ℕ) : List PyNum :=
  pyInt root :: getScaleNotesGo (pyInt root) (getScale scale) numOctaves

/-- The `"major"` chord template, the documented fallback of `CHORDS.get`. -/
def majorChord : List ℤ := [0, 4, 7]

/-- Modelled from the spec: the `CHORDS` name → semitone-offset table of
`ziffers/defaults.py` is missing from the snapshot; the spec fixes the lookup
discipline (named templates, `"major"` as fallback), and the claims below
are independent of the exact set of entries. -/
def CHORDS : List (String × List ℤ) :=
  [("major", majorChord), ("minor", [0, 3, 7]), ("dim", [0, 3, 6]), ("aug", [0, 4, 8])]

/-- Python list indexing, with support for negative indices; `none` models
`IndexError`. -/
def pyIndex {α : Type} (l : List α) (i : ℤ) : Option α :=
  if 0 ≤ i then l[i.toNat]?
  else if 0 ≤ (l.length : ℤ) + i then l[((l.length : ℤ) + i).toNat]? else none

/-- `named_chord_from_degree` from `ziffers/scale.py`: look up the chord
template (defaulting to `"major"`), take the scale degree's note from one
octave of scale notes, and stack the template across `num_octaves`. -/
def namedChordFromDegree (degree : ℤ) (name : String) (root : ℤ)
    (scale : ScaleArg) (numOctaves : ℕ) : Option (List PyNum) :=
  let intervals := (lookupTable CHORDS name).getD majorChord
  match pyIndex (getScaleNotes scale root 1) (degree - 1) with
  | none => none
  | some scaleDegree =>
    some (((List.range numOctaves).map (fun curOct =>
      intervals.map (fun interval =>
        pyAdd (pyAdd scaleDegree (pyInt interval)) (pyInt (curOct * 12))))).flatten)

/-! ## `ziffers/common.py`: the euclidean rhythm generator -/

/-- The local `rotation` helper of `euclidian_rhythm`: Python's
`arr[-idx:] + arr[:-idx]`, including its clamping for out-of-range and
negative `idx`. -/
def rotation {α : Type} (arr : List α) (idx : ℤ) : List α :=
  if 0 < idx then
    let k := min idx.toNat arr.length
    arr.drop (arr.length - k) ++ arr.take (arr.length - k)
  else if idx < 0 then
    let k := min (-idx).toNat arr.length
    arr.drop k ++ arr.take k
  else arr

/-- The local `_starts_descent` helper: `arr[index] > arr[(index+1) % len]`.
Every call made by `euclidian_rhythm` is in range, so the `getD` default is
never consulted. -/
def startsDescent (arr : List ℤ) (index : ℕ) : Bool :=
  decide (arr.getD ((index + 1) % arr.length) 0 < arr.getD index 0)

/-- `euclidian_rhythm` from `ziffers/common.py`.  Note the degenerate branch:
for `pulses ≥ length` the source returns the one-element list `[True]`,
whatever `length` is. -/
def euclidianRhythm (pulses length rot : ℤ) : List Bool :=
  if pulses ≥ length then [true]
  else
    let resList := (List.range length.toNat).map (fun t => pulses * ((t : ℤ) - 1) % length)
    let boolList := (List.range length.toNat).map (fun index => startsDescent resList index)
    rotation boolList rot

/-- One euclidean step outcome: an onset/offset child, or a synthesized rest
carrying the ambient duration. -/
inductive EuclidSlot (α : Type) where
  | item (v : α)
  | rest (duration : ℚ)
deriving DecidableEq, Repr

/-- The `for i in range(self.length)` loop of `Euclid.evaluate`
(`ziffers/classes/sequences.py`): `booleans[i]` out of range is an
`IndexError` (`none`), and so is indexing empty onset/offset lists. -/
def euclidGo {α : Type} (booleans : List Bool) (onsetValues : List α)
    (offsetValues : Option (List α)) (restDur : ℚ) :
    List ℕ → ℕ → ℕ → Option (List (EuclidSlot α))
  | [], _, _ => some []
  | i :: is, onI, offI =>
    match booleans[i]? with
    | none => none
    | some b =>
      if b then
        match onsetValues[onI % onsetValues.length]? with
        | none => none
        | some v => (euclidGo booleans onsetValues offsetValues restDur is (onI + 1) offI).map
            (fun l => .item v :: l)
      else
        match offsetValues with
        | none => (euclidGo booleans onsetValues offsetValues restDur is onI (offI + 1)).map
            (fun l => .rest restDur :: l)
        | some offs =>
          match offs[offI % offs.length]? with
          | none => none
          | some v => (euclidGo booleans onsetValues offsetValues restDur is onI (offI + 1)).map
              (fun l => .item v :: l)

/-- `Euclid.evaluate` from `ziffers/classes/sequences.py`, with the
whitespace-filtered onset/offset children passed in as plain lists. -/
def euclidEvaluate {α : Type} (pulses length rot : ℤ) (onsetValues : List α)
    (offsetValues : Option (List α)) (restDur : ℚ) : Option (List (EuclidSlot α)) :=
  euclidGo (euclidianRhythm pulses length rot) onsetValues offsetValues restDur
    (List.range length.toNat) 0 0

/-! ## `ziffers/classes/items.py` -/

/-- The recognized ambient option fields.  An options `dict` of the source is
modelled by this fixed record of optional fields — a `none` field is a key
absent from the dict.  `key` is modelled as an already-normalised MIDI root
and `scale` as an interval list (the string forms are resolved by
`noteNameToMidi`/`getScale`).  `octave_change` is only ever read from an
item's own `local_options` and is not an attribute of any item. -/
structure Opts where
  key : Option ℤ := none
  scale : Option (List PyNum) := none
  octave : Option ℤ := none
  modifier : Option ℤ := none
  duration : Option ℚ := none
  octave_change : Option ℤ := none
deriving DecidableEq, Repr

/-- Python truthiness of an optional `int` value (`0` and a missing key are
falsy), as `local_options.get(key, False)` followed by `if local_value:`
uses it. -/
def truthyInt : Option ℤ → Option ℤ
  | some v => if v = 0 then none else some v
  | none => none

/-- Python truthiness of an optional rational (`0.0` is falsy). -/
def truthyRat : Option ℚ → Option ℚ
  | some v => if v = 0 then none else some v
  | none => none

/-- Python truthiness of an optional list (`[]` is falsy). -/
def truthyScale : Option (List PyNum) → Option (List PyNum)
  | some [] => none
  | some (x :: xs) => some (x :: xs)
  | none => none

/-- The `Pitch` dataclass of `ziffers/classes/items.py`, restricted to the
fields the claims touch.  `pitch_class` is a required dataclass field; the
remaining resolved fields default to `None`. -/
structure Pitch where
  text : String := ""
  local_options : Opts := {}
  duration : Option ℚ := none
  beat : Option ℚ := none
  pitch_class : ℤ
  pitch_bend : Option ℤ := none
  octave : Option ℤ := none
  modifier : Option ℤ := none
  note : Option ℤ := none
  key : Option ℤ := none
  scale : Option (List PyNum) := none
  freq : Option Freq := none
deriving DecidableEq, Repr

/-- The `"octave"` iteration of the `update_options` loop
(`Meta.update_options`, `ziffers/classes/items.py`): skipped when the key is
absent from the merged options; hard-replaced by a truthy local
`octave_change`; otherwise set to merged value + local octave when the local
octave is truthy; otherwise filled only while `None`. -/
def updateOctaveField (p : Pitch) (m : Option ℤ) : Pitch :=
  match m with
  | none => p
  | some v =>
    match truthyInt p.local_options.octave_change with
    | some oc => { p with octave := some oc }
    | none =>
      match truthyInt p.local_options.octave with
      | some lv => { p with octave := some (v + lv) }
      | none => if p.octave = none then { p with octave := some v } else p

/-- The `"key"` iteration of the `update_options` loop: set only while
`None`, a truthy local value taking precedence over the merged one. -/
def updateKeyField (p : Pitch) (m : Option ℤ) : Pitch :=
  match m with
  | none => p
  | some v =>
    if p.key = none then { p with key := some ((truthyInt p.local_options.key).getD v) }
    else p

/-- The `"scale"` iteration of the `update_options` loop. -/
def updateScaleField (p : Pitch) (m : Option (List PyNum)) : Pitch :=
  match m with
  | none => p
  | some v =>
    if p.scale = none then { p with scale := some ((truthyScale p.local_options.scale).getD v) }
    else p

/-- The `"modifier"` iteration of the `update_options` loop. -/
def updateModifierField (p : Pitch) (m : Option ℤ) : Pitch :=
  match m with
  | none => p
  | some v =>
    if p.modifier = none then
      { p with modifier := some ((truthyInt p.local_options.modifier).getD v) }
    else p

/-- The `"duration"` iteration of the `update_options` loop, which also
refreshes `beat = value * 4`. -/
def updateDurationField (p : Pitch) (m : Option ℚ) : Pitch :=
  match m with
  | none => p
  | some v =>
    if p.duration = none then
      let d := (truthyRat p.local_options.duration).getD v
      { p with duration := some d, beat := some (d * 4) }
    else p

/-- `Meta.update_options` from `ziffers/classes/items.py`: iterate over the
recognized keys of `merged_options = self.local_options | options` (Python's
`dict |` lets the right operand win, so a merged value is
`options.field <|> local_options.field`).  The loop's iterations touch
pairwise distinct attributes and never touch `local_options`, so the loop is
the composition of the per-key steps; a key absent from both dicts is absent
from `merged_options` and its step is skipped. -/
def updateOptions (p : Pitch) (options : Opts) : Pitch :=
  let lo := p.local_options
  updateDurationField
    (updateModifierField
      (updateScaleField
        (updateKeyField
          (updateOctaveField p (options.octave <|> lo.octave))
          (options.key <|> lo.key))
        (options.scale <|> lo.scale))
      (options.modifier <|> lo.modifier))
    (options.duration <|> lo.duration)

/-- `Pitch.update_note` from `ziffers/classes/items.py`.  `pitch_class` is a
required field, so its `is not None` check always passes; `none` models the
`ZeroDivisionError` that `note_from_pc` raises on an empty scale. -/
def updateNote (p : Pitch) (force : Bool) : Option Pitch :=
  let step1 : Option Pitch :=
    match p.key, p.scale with
    | some k, some sc =>
      if p.note = none ∨ force = true then
        if sc.isEmpty then none
        else
          let res := noteFromPc k p.pitch_class sc (p.octave.getD 0) (p.modifier.getD 0) false
          some { p with pitch_bend := res.2,
                        freq := some (midiToFreq res.1.val),
                        note := some ⌊res.1.val⌋ }
      else some p
    | _, _ => some p
  step1.map (fun q =>
    match q.duration with
    | some d => { q with beat := some (d * 4) }
    | none => q)

/-- The `Cyclic` node (`ziffers/classes/items.py`), restricted to its state:
the whitespace-filtered `values` and the `cycle` counter (the `text` and
wrap-character display fields carry no semantics). -/
structure Cyclic (α : Type) where
  values : List α
  cycle : ℤ := 0
deriving DecidableEq, Repr

/-- `Cyclic.get_value`: return `values[cycle % len(values)]`, then increment
`cycle`.  `none` models the `ZeroDivisionError` on empty `values`. -/
def Cyclic.getValue {α : Type} (c : Cyclic α) : Option (α × Cyclic α) :=
  if c.values.length = 0 then none
  else
    match c.values[(c.cycle % (c.values.length : ℤ)).toNat]? with
    | some v => some (v, { c with cycle := c.cycle + 1 })
    | none => none

/-- `n` successive `get_value` calls, collecting the returned values. -/
def Cyclic.getValues {α : Type} (c : Cyclic α) : ℕ → Option (List α)
  | 0 => some []
  | n + 1 =>
    match c.getValue with
    | none => none
    | some (v, c2) => (c2.getValues n).map (v :: ·)

/-- The comparison key of `sorted(self.pitch_classes, key=lambda x: x.note)`.
`Chord.update_notes` only sorts after every pitch has a resolved note, so
the `getD` default is never consulted there. -/
def noteLe (a b : Pitch) : Prop := a.note.getD 0 ≤ b.note.getD 0

instance : DecidableRel noteLe := fun a b => by unfold noteLe; infer_instance

instance : IsTotal Pitch noteLe :=
  ⟨fun a b => le_total (a.note.getD 0) (b.note.getD 0)⟩

instance : IsTrans Pitch noteLe :=
  ⟨fun _ _ _ h1 h2 => le_trans h1 h2⟩

/-- `sorted(self.pitch_classes, key=lambda x: x.note)`.  Python's `sorted`
is a stable sort, and any two stable sorts agree on every input, so it is
modelled by insertion sort (stable and structurally recursive).  Its key
comparisons raise `TypeError` on a `None` key (an unresolved note), modelled
as `none` — but only when a comparison actually happens: a list of two or
more elements has every element take part in at least one comparison, while
a list of at most one element is returned without comparing at all (so a
singleton chord with an unresolved note sorts fine). -/
def pythonSorted (l : List Pitch) : Option (List Pitch) :=
  if 1 < l.length ∧ ¬(∀ p ∈ l, p.note.isSome = true) then none
  else some (List.insertionSort noteLe l)

/-- The `Chord` dataclass of `ziffers/classes/items.py`, restricted to the
fields the claims touch.  The aggregate helper lists default to `None` until
`update_notes` fills them. -/
structure Chord where
  text : String := ""
  local_options : Opts := {}
  duration : Option ℚ := none
  beat : Option ℚ := none
  pitch_classes : List Pitch
  notes : Option (List (Option ℤ)) := none
  pitches : Option (List ℤ) := none
  pitch_bends : Option (List (Option ℤ)) := none
  freqs : Option (List (Option Freq)) := none
  octaves : Option (List (Option ℤ)) := none
  durations : Option (List (Option ℚ)) := none
  beats : Option (List (Option ℚ)) := none
deriving DecidableEq, Repr

/-- Sequence a list of fallible per-pitch updates: `none` as soon as one
update raised. -/
def collectSome {α : Type} : List (Option α) → Option (List α)
  | [] => some []
  | none :: _ => none
  | some x :: rest => (collectSome rest).map (x :: ·)

/-- `Chord.update_notes` from `ziffers/classes/items.py`: update every pitch
(merging `options` when given, then `update_note(True)`), sort the pitches
by resolved note, and rebuild the aligned helper lists.  `none` models the
source's exceptions: `sorted` raising `TypeError` when it compares an
unresolved `None` note (see `pythonSorted`), and an empty chord raising
`IndexError` at `durations[0]`. -/
def updateNotes (c : Chord) (options : Option Opts) : Option Chord :=
  match collectSome (c.pitch_classes.map (fun p =>
      updateNote (match options with | some o => updateOptions p o | none => p) true)) with
  | none => none
  | some updated =>
    match pythonSorted updated with
    | none => none
    | some [] => none
    | some (q :: qs) =>
        some { c with
          pitch_classes := q :: qs,
          pitches := some ((q :: qs).map (·.pitch_class)),
          pitch_bends := some ((q :: qs).map (·.pitch_bend)),
          notes := some ((q :: qs).map (·.note)),
          freqs := some ((q :: qs).map (·.freq)),
          octaves := some ((q :: qs).map (·.octave)),
          durations := some ((q :: qs).map (·.duration)),
          duration := q.duration,
          beats := some ((q :: qs).map (·.beat)),
          text := String.join ((q :: qs).map (·.text)) }

/-! ## `ziffers/classes/root.py`: the root sequence runtime -/

/-- State of the `Ziffers` root object.  The tree evaluator
(`evaluate_tree` + `post_evaluation`) together with the `start_options`
snapshot it is re-run from is abstracted behind `evalF`: `evalF n` is the
flat event list that the `(n+1)`-th evaluation of the tree produces
(successive evaluations may differ, because randomness is re-drawn and the
`Cyclic` counters persist), and `evalCount` counts the evaluations performed
so far.  The `iterator` over `evaluated_values` is modelled by its list of
remaining items `rest`. -/
structure ZState (α : Type) where
  evaluated_values : List α
  rest : List α
  loop_i : ℕ
  cycle_i : ℕ
  cycle_length : ℕ
  evalCount : ℕ
  evalF : ℕ → List α

/-- `init_tree` (also the body of `re_eval`, whose option-resetting is part
of the `evalF` abstraction): evaluate the tree, reset the iterator, set
`cycle_length`. -/
def initTree {α : Type} (s : ZState α) : ZState α :=
  let vals := s.evalF s.evalCount
  { s with evaluated_values := vals, rest := vals,
           cycle_length := vals.length, evalCount := s.evalCount + 1 }

/-- `Ziffers.__getitem__`: compute `loop_i = index % cycle_length` and
`new_cycle = index // cycle_length` against the current `cycle_length`;
re-evaluate when `new_cycle` differs from `cycle_i`, recomputing
`cycle_length` and `loop_i` from the fresh values; serve
`evaluated_values[loop_i]`.  `none` models `ZeroDivisionError` on a zero
`cycle_length` and `IndexError` on an out-of-range `loop_i`. -/
def getItem {α : Type} (s : ZState α) (index : ℕ) : Option (α × ZState α) :=
  if s.cycle_length = 0 then none
  else
    let loopA := index % s.cycle_length
    let newCycle := index / s.cycle_length
    if newCycle ≠ s.cycle_i then
      let s1 := initTree s
      let s2 := { s1 with cycle_i := newCycle, cycle_length := s1.evaluated_values.length }
      if s2.cycle_length = 0 then none
      else
        let loopB := index % s2.cycle_length
        (s2.evaluated_values[loopB]?).map (fun v => (v, { s2 with loop_i := loopB }))
    else
      (s.evaluated_values[loopA]?).map (fun v => (v, { s with loop_i := loopA }))

/-- The first `n` items of the infinite cyclic repetition of `l`. -/
def cycleTake {α : Type} (l : List α) (n : ℕ) : List α :=
  match l with
  | [] => []
  | x :: xs =>
    (List.range n).map (fun i => (x :: xs).get ⟨i % (x :: xs).length, Nat.mod_lt _ (Nat.succ_pos _)⟩)

/-- `Ziffers.take`: `list(islice(cycle(self), num))`.  `itertools.cycle`
drains the underlying iterator once, saving each item it yields, and then
replays the saved items for ever — it never touches the iterator (and hence
never re-evaluates the tree) again.  The drained iterator advances `loop_i`
once per item actually pulled (`Ziffers.__next__`). -/
def takeZ {α : Type} (s : ZState α) (num : ℕ) : List α × ZState α :=
  (cycleTake s.rest num,
   { s with rest := s.rest.drop num, loop_i := s.loop_i + min num s.rest.length })

/-- What the claim asserts `take` does, stated from its words for comparison
with `takeZ`: draw items by cyclic iteration over the realized event list,
re-running the tree evaluator each time the current cycle's items are
exhausted. -/
def takeClaimed {α : Type} (s : ZState α) : ℕ → List α
  | 0 => []
  | n + 1 =>
    match s.evaluated_values with
    | [] => []
    | v :: vs =>
      if h : n + 1 ≤ (v :: vs).length then (v :: vs).take (n + 1)
      else (v :: vs) ++ takeClaimed (initTree s) (n + 1 - (v :: vs).length)
  termination_by n => n
  decreasing_by
    simp only [List.length_cons] at h ⊢
    omega

/-! ## Concrete fixtures used by witnesses and counterexamples -/

/-- A realized root runtime holding two events, whose next re-evaluation
yields one event. -/
def zC5 : ZState ℕ :=
  { evaluated_values := [7, 8], rest := [7, 8], loop_i := 0, cycle_i := 0,
    cycle_length := 2, evalCount := 1, evalF := fun _ => [9] }

/-- A realized root runtime holding two events, whose re-evaluations yield
`[3, 4]` — used to separate replay from re-evaluation in `take`. -/
def zC6 : ZState ℕ :=
  { evaluated_values := [1, 2], rest := [1, 2], loop_i := 0, cycle_i := 0,
    cycle_length := 2, evalCount := 1, evalF := fun _ => [3, 4] }

/-- An item whose octave is already set and whose `local_options` are empty. -/
def pC7 : Pitch := { pitch_class := 1, octave := some 5 }

/-- Ambient options carrying an octave. -/
def oC7 : Opts := { octave := some 1 }

/-- A three-interval all-integer scale (first three Ionian steps). -/
def sclC9 : List PyNum := [pyInt 2, pyInt 2, pyInt 1]

/-- A chord of two unresolved pitches over `sclC9`, out of note order. -/
def chordC9 : Chord :=
  { pitch_classes :=
      [{ pitch_class := 2, key := some 60, scale := some sclC9, duration := some 1 },
       { pitch_class := 0, key := some 60, scale := some sclC9 }] }

/-- The chord `updateNotes chordC9 none` produces: notes resolved, pitches
sorted by note, helper lists aligned. -/
def chordResC9 : Chord :=
  { pitch_classes :=
      [{ pitch_class := 0, key := some 60, scale := some sclC9,
         note := some 60, freq := some ⟨60⟩ },
       { pitch_class := 2, key := some 60, scale := some sclC9, duration := some 1,
         note := some 64, freq := some ⟨64⟩, beat := some 4 }],
    notes := some [some 60, some 64],
    pitches := some [0, 2],
    pitch_bends := some [none, none],
    freqs := some [some ⟨60⟩, some ⟨64⟩],
    octaves := some [none, none],
    durations := some [none, some 1],
    duration := none,
    beats := some [none, some 4],
    text := "" }

/-- A resolvable pitch used to watch `update_note` store the pitch-bend
component unchanged. -/
def pC10 : Pitch := { pitch_class := 1, key := some 60, scale := some sclC9 }

/-! ## Helper lemmas -/

theorem foldl_pyAdd (l : List PyNum) (a : PyNum) :
    l.foldl pyAdd a = ⟨a.val + (l.map PyNum.val).sum, a.isFloat || l.any (·.isFloat)⟩ := by
  induction l generalizing a with
  | nil => cases a; simp
  | cons x xs ih => simp [List.foldl_cons, ih, pyAdd, add_assoc, Bool.or_assoc]

theorem pySum_eq (l : List PyNum) :
    pySum l = ⟨(l.map PyNum.val).sum, l.any (·.isFloat)⟩ := by
  simp [pySum, foldl_pyAdd, pyInt]

theorem pySum_int (l : List PyNum) (h : ∀ x ∈ l, x.isFloat = false) :
    pySum l = ⟨(l.map PyNum.val).sum, false⟩ := by
  rw [pySum_eq]
  have hany : l.any (fun x => x.isFloat) = false := by
    simp only [List.any_eq_false, Bool.not_eq_true]
    exact h
  rw [hany]

/-- The pitch-class folding of `note_from_pc` computes the euclidean
remainder: the negative branch `scale_length - (abs(pc) % scale_length)`
with the `remainder = scale_length ↦ 0` special case, and the nonnegative
branch `pc % scale_length`, both equal `pc % scale_length` (Python `%`,
i.e. `Int.emod`). -/
theorem pyFoldPc (pc len : ℤ) (hlen : 0 < len) :
    (if (if pc < 0 then len - ((pc.natAbs : ℤ) % len) else pc % len) = len then 0
     else (if pc < 0 then len - ((pc.natAbs : ℤ) % len) else pc % len)) = pc % len := by
  by_cases hneg : pc < 0
  · have habs : (pc.natAbs : ℤ) = -pc := by omega
    simp only [if_pos hneg, habs]
    by_cases hz : -pc % len = 0
    · have hdvd : len ∣ pc := (dvd_neg.mp (Int.dvd_of_emod_eq_zero hz))
      rw [hz, Int.emod_eq_zero_of_dvd hdvd]
      simp
    · have h0 : 0 ≤ -pc % len := Int.emod_nonneg _ (ne_of_gt hlen)
      have h1 : -pc % len < len := Int.emod_lt_of_pos _ hlen
      have hne : len - -pc % len ≠ len := by omega
      rw [if_neg hne]
      have hdecomp : pc = (len - -pc % len) + len * (-(-pc / len) - 1) := by
        have h2 := Int.ediv_add_emod (-pc) len
        have h3 : len * (-(-pc / len) - 1) = -(len * (-pc / len)) - len := by ring
        omega
      calc len - -pc % len
          = (len - -pc % len) % len := (Int.emod_eq_of_lt (by omega) (by omega)).symm
        _ = ((len - -pc % len) + len * (-(-pc / len) - 1)) % len :=
            (Int.add_mul_emod_self_left (len - -pc % len) len (-(-pc / len) - 1)).symm
        _ = pc % len := by rw [← hdecomp]
  · have h1 : pc % len < len := Int.emod_lt_of_pos _ hlen
    simp only [if_neg hneg]
    rw [if_neg (show ¬(pc % len = len) by omega)]

/-- `note_from_pc` with an out-of-range pitch class folds it by floor
division and euclidean remainder. -/
theorem noteFromPc_fold (root pitchClass octave modifier : ℤ) (intervals : List PyNum)
    (h : intervals ≠ []) (hout : pitchClass < 0 ∨ (intervals.length : ℤ) ≤ pitchClass) :
    noteFromPc root pitchClass intervals octave modifier false =
      noteFromPc root (pitchClass % (intervals.length : ℤ)) intervals
        (octave + Int.fdiv pitchClass (intervals.length : ℤ)) modifier false := by
  have hlen : 0 < (intervals.length : ℤ) := by
    simp [List.length_pos_iff_ne_nil, h]
  have h0 : 0 ≤ pitchClass % (intervals.length : ℤ) := Int.emod_nonneg _ (ne_of_gt hlen)
  have h1 : pitchClass % (intervals.length : ℤ) < (intervals.length : ℤ) :=
    Int.emod_lt_of_pos _ hlen
  have hA : pitchClass ≥ (intervals.length : ℤ) ∨ pitchClass < 0 := by omega
  have hB : ¬(pitchClass % (intervals.length : ℤ) ≥ (intervals.length : ℤ) ∨
      pitchClass % (intervals.length : ℤ) < 0) := by omega
  unfold noteFromPc
  simp only [Bool.false_eq_true, false_and, ite_false, if_pos hA, if_neg hB, if_false]
  rw [pyFoldPc _ _ hlen]

/-! ## C1: the degenerate euclidean branch -/

/-- C1: for `pulses ≥ length` the source's `euclidian_rhythm` returns the
one-element list `[True]` instead of a `length`-element all-`True` list, and
its caller `Euclid.evaluate` then fails with `IndexError` at `booleans[i]`
(`pulses = 2, length = 2` shown). -/
theorem euclid_degenerate_code_eval :
    euclidianRhythm 2 2 0 = [true]
  ∧ (euclidianRhythm 2 2 0).length ≠ 2
  ∧ euclidEvaluate 2 2 0 [(0 : ℕ)] none (0 : ℚ) = none := by
  decide

/-! ## C2: in-range pitch classes -/

/-- C2: for an all-integer interval list and `0 ≤ pitch_class < scale_length`,
`note_from_pc(root, pitch_class, intervals, octave=0, modifier=0)` resolves
the note to `root + sum(intervals[0:pitch_class])`, with no pitch bend. -/
theorem noteFromPc_in_range (root pitchClass : ℤ) (intervals : List PyNum)
    (hint : ∀ x ∈ intervals, x.isFloat = false)
    (h0 : 0 ≤ pitchClass) (hlt : pitchClass < (intervals.length : ℤ)) :
    noteFromPc root pitchClass intervals 0 0 false =
      (⟨(root : ℚ) + ((intervals.take pitchClass.toNat).map PyNum.val).sum, false⟩, none) := by
  have htake : ∀ x ∈ intervals.take pitchClass.toNat, x.isFloat = false :=
    fun x hx => hint x (List.take_subset _ _ hx)
  have hB : ¬(pitchClass ≥ (intervals.length : ℤ) ∨ pitchClass < 0) := by omega
  unfold noteFromPc
  simp only [Bool.false_eq_true, false_and, ite_false, if_false, if_neg hB]
  simp only [pySum_int _ htake, pySum_int _ hint, pyAdd, pyMul, pyInt]
  norm_num [noteFinish]

/-- C2 witness: `noteFromPc 60 2 [2,2,1] = 64`. -/
theorem noteFromPc_in_range_witness :
    noteFromPc 60 2 [pyInt 2, pyInt 2, pyInt 1] 0 0 false = (⟨64, false⟩, none) := by
  have h := noteFromPc_in_range 60 2 [pyInt 2, pyInt 2, pyInt 1]
    (by decide) (by decide) (by decide)
  rw [h]
  rw [show List.take ((2 : ℤ).toNat) [pyInt 2, pyInt 2, pyInt 1] = [pyInt 2, pyInt 2] from rfl]
  norm_num [pyInt, List.sum_cons]

/-! ## C3: wraparound and folding -/

/-- C3: `note_from_pc(root, scale_length, scale, 0, 0)` equals
`note_from_pc(root, 0, scale, 1, 0)`, and in general a pitch class outside
`[0, scale_length)` is folded by floor division into extra octaves with the
euclidean remainder as new pitch class (the source's
`scale_length - (abs(pc) % scale_length)` with its `= scale_length ↦ 0`
special case computes exactly that remainder). -/
theorem noteFromPc_wraparound (root : ℤ) (intervals : List PyNum) (h : intervals ≠ []) :
    noteFromPc root (intervals.length : ℤ) intervals 0 0 false =
      noteFromPc root 0 intervals 1 0 false
  ∧ ∀ pitchClass octave modifier : ℤ,
      (pitchClass < 0 ∨ (intervals.length : ℤ) ≤ pitchClass) →
      noteFromPc root pitchClass intervals octave modifier false =
        noteFromPc root (pitchClass % (intervals.length : ℤ)) intervals
          (octave + Int.fdiv pitchClass (intervals.length : ℤ)) modifier false := by
  have hlen : 0 < (intervals.length : ℤ) := by
    simp [List.length_pos_iff_ne_nil, h]
  constructor
  · have h2 := noteFromPc_fold root (intervals.length : ℤ) 0 0 intervals h (Or.inr le_rfl)
    rw [h2, Int.emod_self, Int.fdiv_eq_ediv _ (le_of_lt hlen),
      Int.ediv_self (ne_of_gt hlen)]
    norm_num
  · exact fun pc octave modifier hout => noteFromPc_fold root pc octave modifier intervals h hout

/-- C3 witness: wraparound and folding at the Ionian scale, `pc = -1`. -/
theorem noteFromPc_wraparound_witness :
    noteFromPc 60 7 ionianIntervals 0 0 false = noteFromPc 60 0 ionianIntervals 1 0 false
  ∧ noteFromPc 60 (-1) ionianIntervals 0 0 false =
      noteFromPc 60 6 ionianIntervals (-1) 0 false := by
  have h := noteFromPc_wraparound 60 ionianIntervals (by decide)
  constructor
  · have h1 := h.1
    norm_num [ionianIntervals] at h1 ⊢
    exact h1
  · have h2 := h.2 (-1) 0 0 (Or.inl (by decide))
    have e1 : (-1 : ℤ) % ((ionianIntervals.length : ℤ)) = 6 := by decide
    have e2 : (0 : ℤ) + Int.fdiv (-1) ((ionianIntervals.length : ℤ)) = -1 := by decide
    rw [e1, e2] at h2
    exact h2

/-! ## C4: the stateful cyclic node -/

/-- C4: each `Cyclic.get_value` call on non-empty `values` returns
`values[cycle % len(values)]` and increments the counter by exactly one
(never resetting it); four successive calls on `[a, b, d]` return
`a, b, d, a`. -/
theorem cyclic_getValue_spec {α : Type} (c : Cyclic α) (h : c.values ≠ []) :
    c.getValue = (c.values[(c.cycle % (c.values.length : ℤ)).toNat]?).map
        (fun v => (v, { c with cycle := c.cycle + 1 }))
  ∧ ∀ a b d : α, Cyclic.getValues ⟨[a, b, d], 0⟩ 4 = some [a, b, d, a] := by
  constructor
  · have hne : c.values.length ≠ 0 := by simpa using h
    have hlt : (c.cycle % (c.values.length : ℤ)).toNat < c.values.length := by
      have hpos : 0 < (c.values.length : ℤ) := by omega
      have h0 := Int.emod_nonneg c.cycle (ne_of_gt hpos)
      have h1 := Int.emod_lt_of_pos c.cycle hpos
      omega
    unfold Cyclic.getValue
    rw [if_neg hne, List.getElem?_eq_getElem hlt]
    simp
  · intro a b d
    norm_num [Cyclic.getValues, Cyclic.getValue]
    rfl

/-- C4 witness: a concrete three-element cycle starting at counter 0. -/
theorem cyclic_getValue_spec_witness :
    Cyclic.getValue ⟨[10, 20, 30], 0⟩ = some ((10 : ℕ), ⟨[10, 20, 30], 1⟩)
  ∧ Cyclic.getValues ⟨[(7 : ℕ), 8, 9], 0⟩ 4 = some [7, 8, 9, 7] := by
  have h := cyclic_getValue_spec (⟨[10, 20, 30], 0⟩ : Cyclic ℕ) (by decide)
  constructor
  · rw [h.1]; decide
  · exact h.2 7 8 9

/-! ## C5: indexed access on the root runtime -/

/-- C5: on a realized root, `__getitem__` serves
`evaluated_values[index % cycle_length]`; it re-runs the evaluator (and
updates `cycle_length`, `cycle_i` and the iterator) exactly when
`index // cycle_length` differs from the last served cycle, and leaves the
state untouched apart from `loop_i` otherwise. -/
theorem ziffers_getItem_spec {α : Type} (s : ZState α) (index : ℕ)
    (hlen : s.cycle_length = s.evaluated_values.length) (hpos : 0 < s.cycle_length) :
    (index / s.cycle_length = s.cycle_i →
      getItem s index =
        (s.evaluated_values[index % s.cycle_length]?).map
          (fun v => (v, { s with loop_i := index % s.cycle_length })))
  ∧ (index / s.cycle_length ≠ s.cycle_i →
      getItem s index =
        ((s.evalF s.evalCount)[index % (s.evalF s.evalCount).length]?).map
          (fun v => (v, { s with
            evaluated_values := s.evalF s.evalCount,
            rest := s.evalF s.evalCount,
            cycle_length := (s.evalF s.evalCount).length,
            evalCount := s.evalCount + 1,
            cycle_i := index / s.cycle_length,
            loop_i := index % (s.evalF s.evalCount).length }))) := by
  constructor
  · intro heq
    unfold getItem
    rw [if_neg (show ¬(s.cycle_length = 0) by omega), if_neg (not_not_intro heq)]
  · intro hne
    unfold getItem initTree
    rw [if_neg (show ¬(s.cycle_length = 0) by omega), if_pos hne]
    by_cases hz : (s.evalF s.evalCount).length = 0
    · have hnil : s.evalF s.evalCount = [] := List.length_eq_zero.mp hz
      rw [if_pos (by simpa using hz)]
      rw [hnil]
      simp
    · rw [if_neg (by simpa using hz)]

/-- C5 witness: same-cycle access serves without re-evaluation; a new cycle
re-evaluates and serves from the fresh values. -/
theorem ziffers_getItem_spec_witness :
    getItem zC5 1 = some (8, { zC5 with loop_i := 1 })
  ∧ getItem zC5 2 = some (9, { zC5 with
      evaluated_values := [9], rest := [9], cycle_length := 1,
      evalCount := 2, cycle_i := 1, loop_i := 0 }) := by
  have h := ziffers_getItem_spec zC5 1 rfl (by decide)
  have h2 := ziffers_getItem_spec zC5 2 rfl (by decide)
  constructor
  · rw [h.1 (by decide)]; rfl
  · rw [h2.2 (by decide)]; rfl

/-! ## C6: `take` replays, it does not re-evaluate -/

/-- C6 counterexample: on a runtime whose re-evaluation would produce
`[3, 4]`, `take(4)` returns `[1, 2, 1, 2]` — the saved first cycle replayed —
while the claimed re-evaluation on wraparound would produce `[1, 2, 3, 4]`. -/
theorem take_reeval_counterexample :
    (takeZ zC6 4).1 = [1, 2, 1, 2]
  ∧ takeClaimed zC6 4 = [1, 2, 3, 4]
  ∧ (takeZ zC6 4).1 ≠ takeClaimed zC6 4 := by
  have h1 : (takeZ zC6 4).1 = [1, 2, 1, 2] := by decide
  have h2 : takeClaimed zC6 4 = [1, 2, 3, 4] := by
    norm_num [takeClaimed, initTree, zC6]
  exact ⟨h1, h2, by rw [h1, h2]; decide⟩

/-- C6 amended: on a realized non-empty root with a fresh iterator,
`take(n)` returns exactly `n` events drawn by cyclic iteration over the
realized event list, replaying the already-realized items on wraparound and
never re-running the evaluator. -/
theorem take_cycles_without_reeval {α : Type} (s : ZState α) (num : ℕ)
    (hrest : s.rest = s.evaluated_values) (hne : s.evaluated_values ≠ []) :
    (takeZ s num).1.length = num
  ∧ (∀ i, i < num →
      (takeZ s num).1[i]? = s.evaluated_values[i % s.evaluated_values.length]?)
  ∧ (takeZ s num).2.evalCount = s.evalCount := by
  obtain ⟨x, xs, hval⟩ := List.exists_cons_of_ne_nil hne
  refine ⟨?_, ?_, rfl⟩
  · simp [takeZ, cycleTake, hrest, hval]
  · intro i hi
    have hmod : i % (x :: xs).length < (x :: xs).length :=
      Nat.mod_lt _ (Nat.succ_pos _)
    simp only [takeZ, cycleTake, hrest, hval]
    rw [List.getElem?_map, List.getElem?_range hi]
    simp [List.getElem?_eq_getElem hmod]

/-! ## C7: option merging -/

theorem updateOctaveField_eq (p : Pitch) (m : Option ℤ) :
    updateOctaveField p m = { p with octave :=
      match m with
      | none => p.octave
      | some v =>
        match truthyInt p.local_options.octave_change with
        | some oc => some oc
        | none =>
          match truthyInt p.local_options.octave with
          | some lv => some (v + lv)
          | none => if p.octave = none then some v else p.octave } := by
  unfold updateOctaveField
  cases m with
  | none => rfl
  | some v =>
    cases truthyInt p.local_options.octave_change with
    | some oc => rfl
    | none =>
      cases truthyInt p.local_options.octave with
      | some lv => rfl
      | none => split_ifs with h <;> simp_all

theorem updateKeyField_eq (p : Pitch) (m : Option ℤ) :
    updateKeyField p m = { p with key :=
      match m with
      | none => p.key
      | some v =>
        if p.key = none then some ((truthyInt p.local_options.key).getD v) else p.key } := by
  unfold updateKeyField
  cases m with
  | none => rfl
  | some v => split_ifs with h <;> simp_all

theorem updateScaleField_eq (p : Pitch) (m : Option (List PyNum)) :
    updateScaleField p m = { p with scale :=
      match m with
      | none => p.scale
      | some v =>
        if p.scale = none then some ((truthyScale p.local_options.scale).getD v)
        else p.scale } := by
  unfold updateScaleField
  cases m with
  | none => rfl
  | some v => split_ifs with h <;> simp_all

theorem updateModifierField_eq (p : Pitch) (m : Option ℤ) :
    updateModifierField p m = { p with modifier :=
      match m with
      | none => p.modifier
      | some v =>
        if p.modifier = none then some ((truthyInt p.local_options.modifier).getD v)
        else p.modifier } := by
  unfold updateModifierField
  cases m with
  | none => rfl
  | some v => split_ifs with h <;> simp_all

theorem updateDurationField_eq (p : Pitch) (m : Option ℚ) :
    updateDurationField p m = { p with
      duration :=
        match m with
        | none => p.duration
        | some v =>
          if p.duration = none then some ((truthyRat p.local_options.duration).getD v)
          else p.duration,
      beat :=
        match m with
        | none => p.beat
        | some v =>
          if p.duration = none then some (((truthyRat p.local_options.duration).getD v) * 4)
          else p.beat } := by
  unfold updateDurationField
  cases m with
  | none => rfl
  | some v => split_ifs with h <;> simp_all

/-- C7 counterexample: an item whose octave is already set (`octave = 5`)
and whose `local_options` are empty keeps its octave when given ambient
`octave = 1`; the claimed "always adds the incoming ambient value" would
give `6`. -/
theorem updateOptions_octave_counterexample :
    (updateOptions pC7 oC7).octave = some 5
  ∧ (updateOptions pC7 oC7).octave ≠ some (5 + 1) := by
  constructor <;> decide

/-- C7 amended: merging ambient options overwrites a recognized non-octave
field only when the item's current value is `None`, a *truthy* local value
taking precedence over the merged one; the octave is hard-replaced by a
truthy local `octave_change`, else set to the merged ambient value plus the
local octave when the latter is truthy, else filled by the ambient value
only when currently `None` (a merged key absent from both dicts changes
nothing). -/
theorem updateOptions_spec (p : Pitch) (o : Opts) :
    ((updateOptions p o).key =
      match o.key <|> p.local_options.key with
      | none => p.key
      | some v => if p.key = none then some ((truthyInt p.local_options.key).getD v) else p.key)
  ∧ ((updateOptions p o).scale =
      match o.scale <|> p.local_options.scale with
      | none => p.scale
      | some v =>
        if p.scale = none then some ((truthyScale p.local_options.scale).getD v) else p.scale)
  ∧ ((updateOptions p o).modifier =
      match o.modifier <|> p.local_options.modifier with
      | none => p.modifier
      | some v =>
        if p.modifier = none then some ((truthyInt p.local_options.modifier).getD v)
        else p.modifier)
  ∧ ((updateOptions p o).duration =
      match o.duration <|> p.local_options.duration with
      | none => p.duration
      | some v =>
        if p.duration = none then some ((truthyRat p.local_options.duration).getD v)
        else p.duration)
  ∧ ((updateOptions p o).octave =
      match o.octave <|> p.local_options.octave with
      | none => p.octave
      | some v =>
        match truthyInt p.local_options.octave_change with
        | some oc => some oc
        | none =>
          match truthyInt p.local_options.octave with
          | some lv => some (v + lv)
          | none => if p.octave = none then some v else p.octave) := by
  refine ⟨?_, ?_, ?_, ?_, ?_⟩ <;>
    simp [updateOptions, updateDurationField_eq, updateModifierField_eq, updateScaleField_eq,
      updateKeyField_eq, updateOctaveField_eq]

/-- C6 witness: five items from a fresh two-event runtime. -/
theorem take_cycles_without_reeval_witness :
    (takeZ zC6 5).1.length = 5
  ∧ (takeZ zC6 5).1[4]? = some 1
  ∧ (takeZ zC6 5).2.evalCount = 1 := by
  have h := take_cycles_without_reeval zC6 5 rfl (by decide)
  refine ⟨h.1, ?_, ?_⟩
  · rw [h.2.1 4 (by decide)]; decide
  · exact h.2.2

/-! ## C8: silent lookup fallbacks -/

/-- C8: lookup failures recover silently, never raising: an unrecognized
scale name yields the Ionian interval list (an explicit interval list is
returned unchanged), a note name outside `[a-gA-G][#bs]?[1-9]?` yields
MIDI 60, and an unknown chord-type name uses the `"major"` template. -/
theorem lookup_fallbacks :
    (∀ s : String, lookupTable SCALES (normalizeScaleName s) = none →
        getScale (.name s) = ionianIntervals)
  ∧ (∀ l : List PyNum, getScale (.intervals l) = l)
  ∧ (∀ s : String, parseNoteName s.toList = none → noteNameToMidi s = 60)
  ∧ (∀ (degree : ℤ) (chordType : String) (root : ℤ) (scale : ScaleArg) (numOctaves : ℕ),
        lookupTable CHORDS chordType = none →
        namedChordFromDegree degree chordType root scale numOctaves =
          namedChordFromDegree degree "major" root scale numOctaves) := by
  refine ⟨?_, ?_, ?_, ?_⟩
  · intro s h
    simp [getScale, h]
  · intro l
    rfl
  · intro s h
    have h2 : parseNoteName s.data = none := h
    simp [noteNameToMidi, h2]
  · intro degree chordType root scale numOctaves h
    have hm : lookupTable CHORDS "major" = some majorChord := by decide
    simp [namedChordFromDegree, h, hm]

/-- C8 witness: concrete unknown names fall back silently. -/
theorem lookup_fallbacks_witness :
    getScale (.name "Wholetone") = ionianIntervals
  ∧ getScale (.intervals [pyInt 3]) = [pyInt 3]
  ∧ noteNameToMidi "xyz" = 60
  ∧ namedChordFromDegree 1 "weird" 60 (.intervals [pyInt 2, pyInt 2]) 1 =
      namedChordFromDegree 1 "major" 60 (.intervals [pyInt 2, pyInt 2]) 1 := by
  exact ⟨lookup_fallbacks.1 "Wholetone" (by decide),
    lookup_fallbacks.2.1 [pyInt 3],
    lookup_fallbacks.2.2.1 "xyz" (by decide),
    lookup_fallbacks.2.2.2 1 "weird" 60 (.intervals [pyInt 2, pyInt 2]) 1 (by decide)⟩

/-! ## C9: the chord alignment invariant -/

/-- C9: whenever `Chord.update_notes` completes, the chord's
`pitch_classes` are sorted ascending by resolved note (completion of a
chord of two or more pitches forces every note resolved; a lone pitch is
trivially sorted), and the `pitches`, `pitch_bends`, `notes`, `freqs`,
`octaves`, `durations` and `beats` lists are exactly the per-index
projections of the sorted `pitch_classes`. -/
theorem chord_updateNotes_invariant (c c2 : Chord) (o : Option Opts)
    (h : updateNotes c o = some c2) :
    List.Sorted noteLe c2.pitch_classes
  ∧ (1 < c2.pitch_classes.length → ∀ q ∈ c2.pitch_classes, q.note.isSome = true)
  ∧ c2.pitches = some (c2.pitch_classes.map (·.pitch_class))
  ∧ c2.pitch_bends = some (c2.pitch_classes.map (·.pitch_bend))
  ∧ c2.notes = some (c2.pitch_classes.map (·.note))
  ∧ c2.freqs = some (c2.pitch_classes.map (·.freq))
  ∧ c2.octaves = some (c2.pitch_classes.map (·.octave))
  ∧ c2.durations = some (c2.pitch_classes.map (·.duration))
  ∧ c2.beats = some (c2.pitch_classes.map (·.beat)) := by
  unfold updateNotes at h
  split at h
  · exact absurd h (by simp)
  next updated hAS =>
    split at h
    · exact absurd h (by simp)
    · exact absurd h (by simp)
    next q qs hsorted =>
      have hc2 := Option.some.inj h
      subst hc2
      unfold pythonSorted at hsorted
      by_cases hcond : 1 < updated.length ∧ ¬(∀ p ∈ updated, p.note.isSome = true)
      · rw [if_pos hcond] at hsorted
        exact absurd hsorted (by simp)
      · rw [if_neg hcond] at hsorted
        have hsort := Option.some.inj hsorted
        have hperm : List.Perm (List.insertionSort noteLe updated) updated :=
          List.perm_insertionSort _ _
        refine ⟨?_, ?_, rfl, rfl, rfl, rfl, rfl, rfl, rfl⟩
        · have hs := List.sorted_insertionSort noteLe updated
          rw [hsort] at hs
          exact hs
        · intro hlen p hp
          have hlen2 : 1 < updated.length := by
            have hl : (q :: qs).length = updated.length := by
              rw [← hsort]
              exact hperm.length_eq
            have hlen3 : 1 < (q :: qs).length := hlen
            omega
          have hall : ∀ p ∈ updated, p.note.isSome = true := by tauto
          have hmem : p ∈ updated := by
            have hiff := hperm.mem_iff (a := p)
            rw [hsort] at hiff
            exact hiff.mp hp
          exact hall p hmem

/-- C9 witness: a concrete two-pitch chord resolves to `chordResC9`, which
satisfies the invariant. -/
theorem chord_updateNotes_invariant_witness :
    updateNotes chordC9 none = some chordResC9
  ∧ List.Sorted noteLe chordResC9.pitch_classes
  ∧ chordResC9.pitches = some (chordResC9.pitch_classes.map (·.pitch_class))
  ∧ chordResC9.durations = some (chordResC9.pitch_classes.map (·.duration)) := by
  have hEq : updateNotes chordC9 none = some chordResC9 := by
    simp [updateNotes, updateNote, chordC9, chordResC9, sclC9, noteFromPc, noteFinish,
      pySum, pyAdd, pyMul, pyInt, pythonSorted, List.insertionSort, List.orderedInsert,
      noteLe, midiToFreq, collectSome, String.join]
    norm_num
  have h := chord_updateNotes_invariant chordC9 chordResC9 none hEq
  exact ⟨hEq, h.1, h.2.2.1, h.2.2.2.2.2.2.2.1⟩

/-! ## C10: the pitch-bend component -/

/-- C10 counterexample: over the microtonal scale `[0.5, 1.5]` the computed
note `60.0` is `float`-typed but not fractional, yet a numeric pitch bend
(the neutral 8192) is produced — refuting "a numeric pitch-bend value is
produced only when the computed note is fractional". -/
theorem pitchBend_wholeFloat_counterexample :
    noteFromPc 60 0 [⟨1/2, true⟩, ⟨3/2, true⟩] 0 0 false = (⟨60, true⟩, some 8192)
  ∧ (⟨60, true⟩ : PyNum).val = ((⌊(⟨60, true⟩ : PyNum).val⌋ : ℤ) : ℚ) := by
  constructor
  · simp [noteFromPc, noteFinish, resolvePitchBend, pySum, pyAdd, pyMul, pyInt]
  · norm_num

theorem noteFinish_fst (nv : PyNum) : (noteFinish nv).1 = nv := by
  unfold noteFinish resolvePitchBend
  split
  · split <;> rfl
  · rfl

theorem noteFinish_snd_ne (nv : PyNum) : (noteFinish nv).2 ≠ none ↔ nv.isFloat = true := by
  unfold noteFinish resolvePitchBend
  by_cases hf : nv.isFloat = true
  · rw [if_pos hf]
    simp only [hf, iff_true]
    split <;> simp
  · rw [if_neg hf]
    simpa using hf

theorem noteFinish_whole (nv : PyNum) (hf : nv.isFloat = true)
    (hw : nv.val = ((⌊nv.val⌋ : ℤ) : ℚ)) : (noteFinish nv).2 = some 8192 := by
  unfold noteFinish resolvePitchBend
  rw [if_pos hf, if_neg (fun hcon => hcon.2 hw)]

/-- Every `note_from_pc` result factors through the final typing branch. -/
theorem noteFromPc_shape (root pc octave modifier : ℤ) (degrees : Bool)
    (intervals : List PyNum) :
    ∃ nv : PyNum, noteFromPc root pc intervals octave modifier degrees = noteFinish nv := by
  unfold noteFromPc
  exact ⟨_, rfl⟩

/-- C10 amended: over an all-integer interval scale `note_from_pc` returns
`(note, None)` — the pitch-bend component is `None`, not 8192; a numeric
pitch-bend value is produced exactly when the computed note is
`float`-typed (a `float`-typed whole-valued note yields the neutral 8192);
and `Pitch.update_note` stores the returned component into `pitch_bend`
unchanged. -/
theorem noteFromPc_pitchBend_spec :
    (∀ (root pc octave modifier : ℤ) (intervals : List PyNum),
        (∀ x ∈ intervals, x.isFloat = false) →
        (noteFromPc root pc intervals octave modifier false).2 = none
      ∧ (noteFromPc root pc intervals octave modifier false).1.isFloat = false)
  ∧ (∀ (root pc octave modifier : ℤ) (degrees : Bool) (intervals : List PyNum),
        ((noteFromPc root pc intervals octave modifier degrees).2 ≠ none ↔
          (noteFromPc root pc intervals octave modifier degrees).1.isFloat = true))
  ∧ (∀ (root pc octave modifier : ℤ) (degrees : Bool) (intervals : List PyNum),
        (noteFromPc root pc intervals octave modifier degrees).1.isFloat = true →
        (noteFromPc root pc intervals octave modifier degrees).1.val =
          ((⌊(noteFromPc root pc intervals octave modifier degrees).1.val⌋ : ℤ) : ℚ) →
        (noteFromPc root pc intervals octave modifier degrees).2 = some 8192)
  ∧ (∀ (p : Pitch) (k : ℤ) (sc : List PyNum), p.key = some k → p.scale = some sc →
        sc ≠ [] →
        (updateNote p true).map (·.pitch_bend) =
          some ((noteFromPc k p.pitch_class sc (p.octave.getD 0) (p.modifier.getD 0) false).2)) := by
  refine ⟨?_, ?_, ?_, ?_⟩
  · intro root pc octave modifier intervals hint
    have htake : ∀ k, ∀ x ∈ intervals.take k, x.isFloat = false :=
      fun k x hx => hint x (List.take_subset _ _ hx)
    unfold noteFromPc
    simp only [Bool.false_eq_true, false_and, ite_false, if_false]
    split
    all_goals
      simp [noteFinish, pyAdd, pyMul, pyInt, pySum_int _ hint, pySum_int _ (htake _)]
  · intro root pc octave modifier degrees intervals
    obtain ⟨nv, hnv⟩ := noteFromPc_shape root pc octave modifier degrees intervals
    rw [hnv, noteFinish_fst nv]
    exact noteFinish_snd_ne nv
  · intro root pc octave modifier degrees intervals hf hwhole
    obtain ⟨nv, hnv⟩ := noteFromPc_shape root pc octave modifier degrees intervals
    rw [hnv] at hf hwhole ⊢
    rw [noteFinish_fst nv] at hf hwhole
    exact noteFinish_whole nv hf hwhole
  · intro p k sc hk hsc hne
    have hemp : sc.isEmpty = false := by
      cases sc
      · simp at hne
      · rfl
    simp only [updateNote, hk, hsc, hemp, Bool.false_eq_true, if_false, or_true, if_true]
    cases hd : p.duration <;> simp [hd]

/-- C10 witness: the integer-scale component is `None`, the iff holds on the
microtonal fixture, and `update_note` stores the component unchanged. -/
theorem noteFromPc_pitchBend_spec_witness :
    (noteFromPc 60 2 [pyInt 2, pyInt 2, pyInt 1] 0 0 false).2 = none
  ∧ ((noteFromPc 60 0 [⟨1/2, true⟩, ⟨3/2, true⟩] 0 0 false).2 ≠ none ↔
      (noteFromPc 60 0 [⟨1/2, true⟩, ⟨3/2, true⟩] 0 0 false).1.isFloat = true)
  ∧ (updateNote pC10 true).map (·.pitch_bend) =
      some ((noteFromPc 60 1 sclC9 0 0 false).2) := by
  refine ⟨(noteFromPc_pitchBend_spec.1 60 2 0 0 [pyInt 2, pyInt 2, pyInt 1] (by decide)).1,
    noteFromPc_pitchBend_spec.2.1 60 0 0 0 false [⟨1/2, true⟩, ⟨3/2, true⟩], ?_⟩
  exact noteFromPc_pitchBend_spec.2.2.2 pC10 60 sclC9 rfl rfl (by decide)

end Ziffers
